import Mathlib

/-!
Verification development for `src/experiment-manager.py` (experiment/run
identity and directory-lifecycle manager plus a best-performance extractor).

The Python code is shallowly embedded: JSON-serializable configuration
values become the inductive `JVal`; `json.dumps(x, sort_keys=True)` becomes
`dumps`; SHA-256 is implemented bit-faithfully over byte lists; the
filesystem becomes an explicit `FS` record threaded through the manager's
operations; pandas data frames become `Frame` (a header plus rows of
rationals).  Fallible Python code (KeyError, FileNotFoundError, ...) is
embedded with `Except`.
-/

/-! ## JSON values

Model of Python's JSON-serializable values as handled by `json.dumps`.
Mappings are association lists in insertion order (Python dicts preserve
insertion order and have unique keys; uniqueness is captured separately by
`wfb`).  Floats are outside the model; the configurations this repository
hashes are built from ints, strings, booleans, null, lists and dicts.
-/
inductive JVal where
  | null : JVal
  | bool (b : Bool) : JVal
  | int (n : Int) : JVal
  | str (s : String) : JVal
  | arr (xs : List JVal) : JVal
  | obj (kvs : List (String × JVal)) : JVal

/-- Lowercase hexadecimal digit, as produced by Python's `'%04x'` format. -/
def hexDigit (n : Nat) : Char :=
  if n < 10 then Char.ofNat (48 + n) else Char.ofNat (87 + n)

/-- Four lowercase hex digits of `n mod 65536`, Python's `'\u%04x' % n`. -/
def hex4 (n : Nat) : String :=
  String.mk [hexDigit (n / 4096 % 16), hexDigit (n / 256 % 16),
             hexDigit (n / 16 % 16), hexDigit (n % 16)]

/-- Escape of one character inside a JSON string, following CPython's
`json.encoder.py_encode_basestring_ascii` (the default `ensure_ascii=True`
path): `\` and `"` get a backslash; the C0 controls use the shorthand
escapes where they exist and `\u00xx` otherwise; printable ASCII
(0x20–0x7e) passes through; everything else becomes `\uxxxx`, with a
surrogate pair for code points beyond the BMP. -/
def escapeJsonChar (c : Char) : String :=
  let o := c.toNat
  if c = '\\' then "\\\\"
  else if c = '"' then "\\\""
  else if c = '\n' then "\\n"
  else if c = '\t' then "\\t"
  else if c = '\r' then "\\r"
  else if o = 8 then "\\b"
  else if o = 12 then "\\f"
  else if o < 32 then "\\u" ++ hex4 o
  else if o ≤ 126 then String.mk [c]
  else if o < 65536 then "\\u" ++ hex4 o
  else
    let n := o - 65536
    "\\u" ++ hex4 (55296 + n / 1024) ++ "\\u" ++ hex4 (56320 + n % 1024)

/-- JSON string literal for `s`: double quotes around the escaped chars. -/
def quoteJson (s : String) : String :=
  "\"" ++ String.join (s.data.map escapeJsonChar) ++ "\""

/-- Lexicographic code-point comparison of character lists: the order
Python's `sorted` uses on `str` values. -/
def charsLe : List Char → List Char → Bool
  | [], _ => true
  | _ :: _, [] => false
  | a :: as, b :: bs =>
      if a.toNat < b.toNat then true
      else if b.toNat < a.toNat then false
      else charsLe as bs

theorem charsLe_total : ∀ x y : List Char, charsLe x y = true ∨ charsLe y x = true
  | [], _ => Or.inl rfl
  | _ :: _, [] => Or.inr rfl
  | a :: as, b :: bs => by
      simp only [charsLe]
      rcases Nat.lt_trichotomy a.toNat b.toNat with h | h | h
      · left; rw [if_pos h]
      · rw [if_neg (by omega), if_neg (by omega), if_neg (by omega), if_neg (by omega)]
        exact charsLe_total as bs
      · right; rw [if_pos h]

theorem charsLe_trans : ∀ x y z : List Char,
    charsLe x y = true → charsLe y z = true → charsLe x z = true
  | [], _, _ => fun _ _ => rfl
  | _ :: _, [], _ => fun h _ => absurd h (by simp [charsLe])
  | _ :: _, _ :: _, [] => fun _ h => absurd h (by simp [charsLe])
  | a :: as, b :: bs, c :: cs => fun h1 h2 => by
      simp only [charsLe] at h1 h2 ⊢
      rcases Nat.lt_trichotomy a.toNat b.toNat with hab | hab | hab
      · rcases Nat.lt_trichotomy b.toNat c.toNat with hbc | hbc | hbc
        · rw [if_pos (by omega)]
        · rw [if_pos (by omega)]
        · rw [if_neg (by omega), if_pos (by omega)] at h2; simp at h2
      · rw [if_neg (by omega), if_neg (by omega)] at h1
        rcases Nat.lt_trichotomy b.toNat c.toNat with hbc | hbc | hbc
        · rw [if_pos (by omega)]
        · rw [if_neg (by omega), if_neg (by omega)] at h2
          rw [if_neg (by omega), if_neg (by omega)]
          exact charsLe_trans as bs cs h1 h2
        · rw [if_neg (by omega), if_pos (by omega)] at h2; simp at h2
      · rw [if_neg (by omega), if_pos (by omega)] at h1; simp at h1

theorem charsLe_antisymm : ∀ x y : List Char,
    charsLe x y = true → charsLe y x = true → x = y
  | [], [] => fun _ _ => rfl
  | [], _ :: _ => fun _ h => absurd h (by simp [charsLe])
  | _ :: _, [] => fun h _ => absurd h (by simp [charsLe])
  | a :: as, b :: bs => fun h1 h2 => by
      simp only [charsLe] at h1 h2
      rcases Nat.lt_trichotomy a.toNat b.toNat with hab | hab | hab
      · rw [if_neg (by omega), if_pos (by omega)] at h2; simp at h2
      · rw [if_neg (by omega), if_neg (by omega)] at h1
        rw [if_neg (by omega), if_neg (by omega)] at h2
        have ha : a = b := by
          have h' : Char.ofNat a.toNat = Char.ofNat b.toNat := congrArg Char.ofNat hab
          rwa [Char.ofNat_toNat, Char.ofNat_toNat] at h'
        rw [ha, charsLe_antisymm as bs h1 h2]
      · rw [if_neg (by omega), if_pos (by omega)] at h1; simp at h1

/-- Key-order relation on association-list entries: compare first
components by code point, the order Python's `sorted` uses on `str`. -/
def keyLE {α : Type} (a b : String × α) : Prop :=
  charsLe a.1.data b.1.data = true

instance {α : Type} : DecidableRel (keyLE (α := α)) := fun a b =>
  inferInstanceAs (Decidable (charsLe a.1.data b.1.data = true))

instance {α : Type} : IsTotal (String × α) keyLE :=
  ⟨fun a b => charsLe_total a.1.data b.1.data⟩

instance {α : Type} : IsTrans (String × α) keyLE :=
  ⟨fun _ _ _ h h' => charsLe_trans _ _ _ h h'⟩

/-- Sort association-list entries by key, the `sort_keys=True` of
`json.dumps` (keys of a Python dict are distinct, so any comparison sort
gives the same result; insertion sort is used here). -/
def sortByKey {α : Type} (l : List (String × α)) : List (String × α) :=
  List.insertionSort keyLE l

mutual

/-- Embedding of Python's `json.dumps(x, sort_keys=True)` with the default
separators `', '` and `': '`.  Note on the object case: CPython sorts a
dict's items and then renders each value; here each value is rendered
first (`dumpsEntries`) and the rendered entries are then sorted by key.
The two orders agree because sorting compares keys only, and this order
makes the recursion structural. -/
def dumps : JVal → String
  | .null => "null"
  | .bool b => if b then "true" else "false"
  | .int n => toString n
  | .str s => quoteJson s
  | .arr xs => "[" ++ String.intercalate ", " (dumpsList xs) ++ "]"
  | .obj kvs =>
      "\x7b" ++ String.intercalate ", "
        ((sortByKey (dumpsEntries kvs)).map fun p => quoteJson p.1 ++ ": " ++ p.2)
        ++ "\x7d"

/-- Serializations of the elements of a list, in order. -/
def dumpsList : List JVal → List String
  | [] => []
  | x :: xs => dumps x :: dumpsList xs

/-- Entries with their values serialized, insertion order preserved. -/
def dumpsEntries : List (String × JVal) → List (String × String)
  | [] => []
  | (k, v) :: rest => (k, dumps v) :: dumpsEntries rest

end

example : dumps (.int 1) = "1" := by rfl
example : dumps (.obj [("b", .int 2), ("a", .arr [.int 1, .str "x", .bool true, .null])])
    = "\x7b\"a\": [1, \"x\", true, null], \"b\": 2\x7d" := by rfl
example : dumps (.obj []) = "\x7b\x7d" := by rfl
example : dumps (.arr []) = "[]" := by rfl
example : dumps (.str "a\"b\\c\nd") = "\"a\\\"b\\\\c\\nd\"" := by rfl

/-! ## UTF-8 and SHA-256

Embedding of `str.encode('utf-8')` and `hashlib.sha256`, over `List Nat`
byte strings (each entry < 256).  Machine words are `Nat` with explicit
reduction modulo 2^32.
-/

/-- UTF-8 encoding of one character (code point), as a list of bytes. -/
def utf8Char (c : Char) : List Nat :=
  let n := c.toNat
  if n < 128 then [n]
  else if n < 2048 then [192 + n / 64, 128 + n % 64]
  else if n < 65536 then [224 + n / 4096, 128 + n / 64 % 64, 128 + n % 64]
  else [240 + n / 262144, 128 + n / 4096 % 64, 128 + n / 64 % 64, 128 + n % 64]

/-- UTF-8 encoding of a string: Python's `s.encode('utf-8')`. -/
def utf8 (s : String) : List Nat :=
  s.data.foldr (fun c acc => utf8Char c ++ acc) []

/-- Truncate to a 32-bit word. -/
def w32 (n : Nat) : Nat := n % 4294967296

/-- Right rotation of a 32-bit word by `k` bits. -/
def rotr (x k : Nat) : Nat := w32 ((x >>> k) ||| (x <<< (32 - k)))

/-- The 64 SHA-256 round constants. -/
def sha256K : List Nat :=
  [
   1116352408, 1899447441, 3049323471, 3921009573, 961987163,
   1508970993, 2453635748, 2870763221, 3624381080, 310598401,
   607225278, 1426881987, 1925078388, 2162078206, 2614888103,
   3248222580, 3835390401, 4022224774, 264347078, 604807628,
   770255983, 1249150122, 1555081692, 1996064986, 2554220882,
   2821834349, 2952996808, 3210313671, 3336571891, 3584528711,
   113926993, 338241895, 666307205, 773529912, 1294757372,
   1396182291, 1695183700, 1986661051, 2177026350, 2456956037,
   2730485921, 2820302411, 3259730800, 3345764771, 3516065817,
   3600352804, 4094571909, 275423344, 430227734, 506948616,
   659060556, 883997877, 958139571, 1322822218, 1537002063,
   1747873779, 1955562222, 2024104815, 2227730452, 2361852424,
   2428436474, 2756734187, 3204031479, 3329325298]

/-- The SHA-256 initial hash state. -/
def sha256H0 : List Nat :=
  [
   1779033703, 3144134277, 1013904242, 2773480762,
   1359893119, 2600822924, 528734635, 1541459225]

/-- Big-endian bytes of `n`, `k` bytes wide. -/
def beBytes : Nat → Nat → List Nat
  | 0, _ => []
  | k + 1, n => beBytes k (n / 256) ++ [n % 256]

/-- SHA-256 message padding: append `0x80`, zeros up to 56 mod 64 bytes,
then the bit length as an 8-byte big-endian integer. -/
def shaPad (msg : List Nat) : List Nat :=
  let z := (119 - msg.length % 64) % 64
  msg ++ 128 :: List.replicate z 0 ++ beBytes 8 (8 * msg.length)

/-- Combine 4 bytes into one big-endian 32-bit word, then the rest. -/
def bytesToWords : List Nat → List Nat
  | b0 :: b1 :: b2 :: b3 :: rest =>
      (((b0 * 256 + b1) * 256 + b2) * 256 + b3) :: bytesToWords rest
  | _ => []

/-- Split a list into chunks of 64 elements (fuel-driven structural
recursion; `fuel` bounds the number of chunks, and `chunks64` passes the
list length, which is always enough). -/
def chunksAux : Nat → List Nat → List (List Nat)
  | _, [] => []
  | 0, l => [l]
  | fuel + 1, l => l.take 64 :: chunksAux fuel (l.drop 64)

/-- Split a list into chunks of 64 elements. -/
def chunks64 (l : List Nat) : List (List Nat) := chunksAux l.length l

/-- The lowercase sigma-0 function of the SHA-256 message schedule. -/
def sigA (x : Nat) : Nat := rotr x 7 ^^^ (rotr x 18 ^^^ (x >>> 3))

/-- The lowercase sigma-1 function of the SHA-256 message schedule. -/
def sigB (x : Nat) : Nat := rotr x 17 ^^^ (rotr x 19 ^^^ (x >>> 10))

/-- Extend the 16 block words by `k` more schedule words.  The
accumulator is kept reversed (most recent word first). -/
def schedExt (acc : List Nat) : Nat → List Nat
  | 0 => acc
  | k + 1 =>
      let w2 := acc.getD 1 0
      let w7 := acc.getD 6 0
      let w15 := acc.getD 14 0
      let w16 := acc.getD 15 0
      schedExt (w32 (w16 + sigA w15 + w7 + sigB w2) :: acc) k

/-- The full 64-word message schedule of one 64-byte block. -/
def schedule (block : List Nat) : List Nat :=
  (schedExt (bytesToWords block).reverse 48).reverse

/-- One SHA-256 compression round.  The state is the list
`[a, b, c, d, e, f, g, h]`; `wk` is the schedule word plus constant. -/
def shaRound (st : List Nat) (wk : Nat × Nat) : List Nat :=
  let a := st.getD 0 0
  let b := st.getD 1 0
  let c := st.getD 2 0
  let d := st.getD 3 0
  let e := st.getD 4 0
  let f := st.getD 5 0
  let g := st.getD 6 0
  let h := st.getD 7 0
  let s1 := rotr e 6 ^^^ rotr e 11 ^^^ rotr e 25
  let ch := (e &&& f) ^^^ ((e ^^^ 4294967295) &&& g)
  let temp1 := w32 (h + s1 + ch + wk.2 + wk.1)
  let s0 := rotr a 2 ^^^ rotr a 13 ^^^ rotr a 22
  let maj := (a &&& b) ^^^ (a &&& c) ^^^ (b &&& c)
  let temp2 := w32 (s0 + maj)
  [w32 (temp1 + temp2), a, b, c, w32 (d + temp1), e, f, g]

/-- Process one 64-byte block: run the 64 rounds and add the result to
the incoming hash state, word-wise mod 2^32. -/
def shaBlock (st : List Nat) (block : List Nat) : List Nat :=
  let out := ((schedule block).zip sha256K).foldl shaRound st
  List.zipWith (fun x y => w32 (x + y)) st out

/-- SHA-256 digest of a byte string, as the big-endian 256-bit integer
(Python's `int(hashlib.sha256(m).hexdigest(), base=16)`). -/
def sha256Nat (msg : List Nat) : Nat :=
  ((chunks64 (shaPad msg)).foldl shaBlock sha256H0).foldl
    (fun acc h => acc * 4294967296 + h) 0

/-! ## The experiment manager

Embedding of `ExperimentManager`.  Paths are lists of components rendered
with `/` between them (`pathStr`), matching `str(Path(a) / b / c)` for
plain component names.  The mutable `self` becomes `MState`; the
filesystem becomes the explicit record `FS`; wall-clock time enters as the
already-formatted minute string `now` (the code's
`datetime.datetime.now().strftime('%y-%m-%d--%H-%M')`).  Python
exceptions become the `PyErr` error type of `Except`.
-/

/-- A filesystem path as a list of components. -/
abbrev FsPath := List String

/-- Rendering of a path, `str(Path(a) / b / c)` for plain components. -/
def pathStr (p : FsPath) : String := String.intercalate "/" p

/-- Python exceptions raised by the manager's operations:
`FileNotFoundError` (with its path argument), `ValueError` from `max` on
an empty sequence, `KeyError` (with the missing key), `TypeError` from
subscripting `None`, and `FileExistsError` from `Path.mkdir`. -/
inductive PyErr where
  | fileNotFound (path : String) : PyErr
  | maxEmptySequence : PyErr
  | keyError (k : String) : PyErr
  | typeErrorNoneSub : PyErr
  | fileExists (path : String) : PyErr
  deriving DecidableEq, Repr

/-- The filesystem: existing directories, files with their contents, and
a modification-time table consulted by `os.path.getmtime`. -/
structure FS where
  dirs : List FsPath
  files : List (FsPath × String)
  mtimes : List (FsPath × Nat)
  deriving DecidableEq, Repr

/-- `Path.exists()`: the path is a directory or a file. -/
def FS.existsPath (fs : FS) (p : FsPath) : Bool :=
  fs.dirs.contains p || fs.files.any (fun q => q.1 == p)

/-- `os.path.getmtime` (every globbed entry exists, so the default is
never consulted on the runs the code performs). -/
def FS.mtime (fs : FS) (p : FsPath) : Nat :=
  match fs.mtimes.find? (fun q => q.1 == p) with
  | some q => q.2
  | none => 0

/-- `glob.glob(str(dir / '*'))`: the entries directly below `dir`, as full
paths.  Directories are listed before files; glob's on-disk order is
OS-dependent, so the model fixes this one. -/
def FS.glob (fs : FS) (dir : FsPath) : List FsPath :=
  (fs.dirs ++ fs.files.map Prod.fst).filter
    (fun q => q.length == dir.length + 1 && q.take dir.length == dir)

/-- Python's `max(l, key=f)`: `ValueError` on an empty list, otherwise the
first element attaining the maximal key. -/
def pyMaxByKey (f : FsPath → Nat) : List FsPath → Except PyErr FsPath
  | [] => .error .maxEmptySequence
  | x :: xs => .ok (xs.foldl (fun b a => if f a > f b then a else b) x)

/-- All nonempty proper-or-full prefixes of a path, shortest first. -/
def ancestorsOf (p : FsPath) : List FsPath :=
  (List.range p.length).map (fun k => p.take (k + 1))

/-- `Path.mkdir(parents=True, exist_ok=True)` (the only form the code
uses): an existing directory is not an error, an existing file at the
target is `FileExistsError`, and missing ancestors are created. -/
def FS.mkdirParents (fs : FS) (p : FsPath) : Except PyErr FS :=
  if fs.files.any (fun q => q.1 == p) then .error (.fileExists (pathStr p))
  else .ok { fs with
    dirs := fs.dirs ++ (ancestorsOf p).filter (fun q => !fs.dirs.contains q) }

/-- `open(path, 'w')` followed by a full write: create or overwrite. -/
def FS.writeFile (fs : FS) (p : FsPath) (content : String) : FS :=
  { fs with files := (p, content) :: fs.files.filter (fun q => q.1 ≠ p) }

/-- Content of a file, if present. -/
def FS.fileContent (fs : FS) (p : FsPath) : Option String :=
  (fs.files.find? (fun q => q.1 == p)).map Prod.snd

/-- The manager's instance state (`self`).  `checkpoint_params` only
configures the external `ModelCheckpoint` callback and has no effect on
any claim, so it is not carried here. -/
structure MState where
  params : Option (List (String × JVal))
  base_experiment_path : String
  run_path : Option FsPath
  run_id : Option String
  experiment_id_folder : Option String
  monitored_param_keys : List String

/-- `ExperimentManager.__init__` with an explicit base directory. -/
def initManager (base : Option String) (keys : List String) : MState :=
  { params := none
    base_experiment_path := base.getD "experiments"
    run_path := none
    run_id := none
    experiment_id_folder := none
    monitored_param_keys := keys }

/-- `self.params[k]`: `KeyError` when absent, `TypeError` when `params`
is still `None`. -/
def paramsGet (params : Option (List (String × JVal))) (k : String) :
    Except PyErr JVal :=
  match params with
  | none => .error .typeErrorNoneSub
  | some ps =>
      match ps.find? (fun q => q.1 == k) with
      | some q => .ok q.2
      | none => .error (.keyError k)

/-- The `hash_8` lambda of `get_experiment_id`: the first 8 characters of
the decimal representation of the SHA-256 digest of the UTF-8 encoded,
key-sorted JSON serialization. -/
def hash_8 (x : JVal) : String :=
  String.mk ((Nat.repr (sha256Nat (utf8 (dumps x)))).data.take 8)

/-- `ExperimentManager.get_experiment_id`. -/
def get_experiment_id (st : MState) : Except PyErr String :=
  match st.experiment_id_folder with
  | some f => .ok f
  | none =>
      (st.monitored_param_keys.foldlM
        (fun acc k => (paramsGet st.params k).map
          (fun v => acc ++ "-" ++ hash_8 v)) "").map
        (fun idh => "exp-" ++ idh)

/-- `ExperimentManager.get_run_id`; `now` is the formatted current
minute. -/
def get_run_id (st : MState) (now : String) : String :=
  match st.run_id with
  | some r => r
  | none => "run--" ++ now

/-- `ExperimentManager.resume_run`.  Returns the possibly-updated state
together with the latest checkpoint path or the raised exception.  Note
the order in the source: the identifiers are recorded only inside the
`exists` branch, and before the checkpoint scan. -/
def resume_run (fs : FS) (st : MState) (experiment_id_folder run_id_folder : String) :
    MState × Except PyErr String :=
  let supposed_run : FsPath := [st.base_experiment_path, experiment_id_folder, run_id_folder]
  if fs.existsPath supposed_run then
    let st' := { st with run_id := some run_id_folder,
                         experiment_id_folder := some experiment_id_folder }
    match pyMaxByKey fs.mtime (fs.glob (supposed_run ++ ["models"])) with
    | .ok p => (st', .ok (pathStr p))
    | .error e => (st', .error e)
  else
    (st, .error (.fileNotFound (pathStr supposed_run)))

/-- Indentation padding: `indent=2` gives two spaces per nesting level. -/
def pad (lvl : Nat) : String := String.mk (List.replicate (2 * lvl) ' ')

mutual

/-- Embedding of `json.dump(x, f, sort_keys=True, indent=2)`: the pretty
serialization written to the parameters file.  Empty containers stay on
one line; nonempty ones put each item on its own indented line; the
object case renders values first and then sorts entries by key, which
agrees with CPython's sort-then-render because sorting compares keys
only. -/
def dumpsInd : Nat → JVal → String
  | _, .null => "null"
  | _, .bool b => if b then "true" else "false"
  | _, .int n => toString n
  | _, .str s => quoteJson s
  | _, .arr [] => "[]"
  | lvl, .arr (x :: xs) =>
      "[\n" ++ String.intercalate ",\n" (dumpsIndList (lvl + 1) (x :: xs))
        ++ "\n" ++ pad lvl ++ "]"
  | _, .obj [] => "\x7b\x7d"
  | lvl, .obj (kv :: kvs) =>
      "\x7b\n" ++ String.intercalate ",\n"
        ((sortByKey (dumpsIndEntries (lvl + 1) (kv :: kvs))).map
          (fun p => pad (lvl + 1) ++ quoteJson p.1 ++ ": " ++ p.2))
        ++ "\n" ++ pad lvl ++ "\x7d"

/-- Indented serializations of list elements, each with its padding. -/
def dumpsIndList (lvl : Nat) : List JVal → List String
  | [] => []
  | x :: xs => (pad lvl ++ dumpsInd lvl x) :: dumpsIndList lvl xs

/-- Entries with values serialized at the given level. -/
def dumpsIndEntries (lvl : Nat) : List (String × JVal) → List (String × String)
  | [] => []
  | (k, v) :: rest => (k, dumpsInd lvl v) :: dumpsIndEntries lvl rest

end

example : dumpsInd 0 (.obj [("a", .int 1), ("b", .arr [.int 1, .int 2]), ("c", .obj [])])
    = "\x7b\n  \"a\": 1,\n  \"b\": [\n    1,\n    2\n  ],\n  \"c\": \x7b\x7d\n\x7d" := by rfl

/-- Python truthiness (`if(self.params['debug'])`) on JSON values. -/
def jTruthy : JVal → Bool
  | .null => false
  | .bool b => b
  | .int n => n != 0
  | .str s => !s.isEmpty
  | .arr xs => !xs.isEmpty
  | .obj kvs => !kvs.isEmpty

/-- Content `json.dump(self.params, f, sort_keys=True, indent=2)` writes:
the manager's params serialized as a JSON object (or `null` when unset,
though `make_experiment_path` has already raised in that case). -/
def paramsJson : Option (List (String × JVal)) → String
  | some ps => dumpsInd 0 (.obj ps)
  | none => "null"

/-- `ExperimentManager.write_parameters`: persist the configuration to
`run_path / 'hyperparameters.json'` only when no resumed identity is
recorded.  Reading `self.run_path` while it is `None` would be a
`TypeError` in Python, hence the `Except`. -/
def write_parameters (fs : FS) (st : MState) : Except PyErr FS :=
  match st.experiment_id_folder with
  | some _ => .ok fs
  | none =>
      match st.run_path with
      | some rp => .ok (fs.writeFile (rp ++ ["hyperparameters.json"]) (paramsJson st.params))
      | none => .error .typeErrorNoneSub

/-- `ExperimentManager.get_debug_path`. -/
def get_debug_path (st : MState) : FsPath := [st.base_experiment_path, "debug"]

/-- `ExperimentManager.get_run_path`. -/
def get_run_path (st : MState) (now : String) : Except PyErr FsPath :=
  (get_experiment_id st).map (fun e => [st.base_experiment_path, e, get_run_id st now])

/-- `ExperimentManager.make_experiment_path`: choose the debug or the
identity-derived run path, create it and its `models` subdirectory
(`parents=True, exist_ok=True`), record it in `self.run_path`
(`resolve()` is modeled as the identity; the model has no working
directory), and persist the parameters.  The `print` is ignored. -/
def make_experiment_path (fs : FS) (st : MState) (now : String) :
    Except PyErr (MState × FS) := do
  let dbg ← paramsGet st.params "debug"
  let run_path ← if jTruthy dbg then pure (get_debug_path st) else get_run_path st now
  let fs ← fs.mkdirParents run_path
  let st := { st with run_path := some run_path }
  let fs ← fs.mkdirParents (run_path ++ ["models"])
  let fs ← write_parameters fs st
  return (st, fs)

/-- `ExperimentManager.set_parameter_files` (`OrderedDict(params)` keeps
the given entry order, so it is the identity on the association list). -/
def set_parameter_files (st : MState) (params : List (String × JVal)) : MState :=
  { st with params := some params }

/-- `ExperimentManager.prepare`: store the configuration, then create the
directory layout.  The callback objects built afterwards (CSVLogger,
ModelCheckpoint, WriteBestPerformances) only package path strings for the
external training engine and touch neither the manager state nor the
filesystem, so the model returns the updated state and filesystem. -/
def prepare (fs : FS) (st : MState) (params : List (String × JVal)) (now : String) :
    Except PyErr (MState × FS) :=
  make_experiment_path fs (set_parameter_files st params) now

/-! ## The best-performance extractor

Embedding of `WriteBestPerformances.on_train_end`.  The parsed metrics
log (`pd.read_csv`) is a `Frame`: a header and rows of rationals (the
float values the training engine logs are modeled as `ℚ`; no NaN enters
the model, and `Series.min` of an empty column — pandas' NaN — is modeled
as `none`, which the equality mask matches nowhere, exactly like NaN).
`read_csv` raises `EmptyDataError` when the file has no columns at all;
a header-only file parses to a frame with zero rows. -/

/-- Errors surfaced by the extractor: pandas' `EmptyDataError` from
`read_csv` and `KeyError` from a missing column. -/
inductive PdErr where
  | emptyDataError : PdErr
  | keyError (k : String) : PdErr
  deriving DecidableEq, Repr

/-- A parsed tabular log: column names and rows of values. -/
structure Frame where
  cols : List String
  rows : List (List ℚ)
  deriving DecidableEq, Repr

/-- `df[c] = q`: overwrite the column when present, else append it. -/
def setCol (f : Frame) (c : String) (q : ℚ) : Frame :=
  if f.cols.contains c then
    { f with rows := f.rows.map (fun r => r.set (f.cols.indexOf c) q) }
  else
    { cols := f.cols ++ [c], rows := f.rows.map (fun r => r ++ [q]) }

/-- Keep the smaller of an accumulator and the next value (`Rat.blt` is
the executable strict order on `ℚ`). -/
def ratMin (acc y : ℚ) : ℚ := if Rat.blt y acc then y else acc

/-- `Series.min()`: `none` on an empty column (pandas' NaN). -/
def colMin? : List ℚ → Option ℚ
  | [] => none
  | x :: xs => some (xs.foldl ratMin x)

/-- `WriteBestPerformances.on_train_end`: read the log, append the
elapsed column, select the rows whose watched value equals the column
minimum, and emit them as records (`to_json(orient='records')`). -/
def on_train_end (f : Frame) (elapsed : ℚ) (watched : String) :
    Except PdErr (List (List (String × ℚ))) :=
  if f.cols.isEmpty then .error .emptyDataError
  else
    let df := setCol f "elapsed" elapsed
    if df.cols.contains watched then
      let j := df.cols.indexOf watched
      let m := colMin? (df.rows.map (fun r => r.getD j 0))
      .ok ((df.rows.filter (fun r => decide (some (r.getD j 0) = m))).map
        (fun r => df.cols.zip r))
    else .error (.keyError watched)

/-! ## Helper lemmas -/

/-- Strict key order: the keys compare `≤` and differ. -/
def keyLT {α : Type} (a b : String × α) : Prop := keyLE a b ∧ a.1 ≠ b.1

theorem keyLT_antisymm {α : Type} : ∀ a b : String × α, keyLT a b → keyLT b a → a = b := by
  rintro a b ⟨h1, hne⟩ ⟨h2, _⟩
  exact absurd (String.ext (charsLe_antisymm _ _ h1 h2)) hne

/-- A `keyLE`-sorted list whose keys are distinct is `keyLT`-sorted. -/
theorem sorted_keyLT_of_sorted_keyLE {α : Type} {l : List (String × α)}
    (hs : l.Sorted keyLE) (hn : (l.map Prod.fst).Nodup) : l.Sorted keyLT := by
  have hp : l.Pairwise (fun a b : String × α => a.1 ≠ b.1) :=
    (List.pairwise_map.mp hn)
  exact hs.and hp

/-- Two permuted association lists with the same distinct keys sort to the
same list: key sorting is insertion-order independent. -/
theorem sortByKey_eq_of_perm {α : Type} {l1 l2 : List (String × α)}
    (hp : l1.Perm l2) (hn : (l1.map Prod.fst).Nodup) :
    sortByKey l1 = sortByKey l2 := by
  have hs1 : (sortByKey l1).Sorted (keyLE (α := α)) := List.sorted_insertionSort keyLE l1
  have hs2 : (sortByKey l2).Sorted (keyLE (α := α)) := List.sorted_insertionSort keyLE l2
  have hp1 : (sortByKey l1).Perm l1 := List.perm_insertionSort keyLE l1
  have hp2 : (sortByKey l2).Perm l2 := List.perm_insertionSort keyLE l2
  have hps : (sortByKey l1).Perm (sortByKey l2) := hp1.trans (hp.trans hp2.symm)
  have hn1 : ((sortByKey l1).map Prod.fst).Nodup := (hp1.map Prod.fst).nodup_iff.mpr hn
  have hn2 : ((sortByKey l2).map Prod.fst).Nodup :=
    ((hps.map Prod.fst).nodup_iff).mp hn1
  haveI : IsAntisymm (String × α) keyLT := ⟨keyLT_antisymm⟩
  exact List.eq_of_perm_of_sorted hps
    (sorted_keyLT_of_sorted_keyLE hs1 hn1)
    (sorted_keyLT_of_sorted_keyLE hs2 hn2)

mutual

/-- Well-formedness of a JSON value as produced from Python data: every
mapping has distinct keys (a Python dict cannot carry duplicates). -/
def wfb : JVal → Bool
  | .null => true
  | .bool _ => true
  | .int _ => true
  | .str _ => true
  | .arr xs => wfbList xs
  | .obj kvs => decide ((kvs.map Prod.fst).Nodup) && wfbEntries kvs

/-- Well-formedness of every element. -/
def wfbList : List JVal → Bool
  | [] => true
  | x :: xs => wfb x && wfbList xs

/-- Well-formedness of every entry value. -/
def wfbEntries : List (String × JVal) → Bool
  | [] => true
  | (_, v) :: rest => wfb v && wfbEntries rest

end

mutual

/-- Two JSON values denote the same Python value up to the insertion
order of mapping keys: equal leaves, element-wise equivalent arrays, and
objects whose entry lists match up to a permutation, with equal keys and
equivalent values. -/
inductive JEquiv : JVal → JVal → Prop where
  | null : JEquiv .null .null
  | bool (b : Bool) : JEquiv (.bool b) (.bool b)
  | int (n : Int) : JEquiv (.int n) (.int n)
  | str (s : String) : JEquiv (.str s) (.str s)
  | arr {xs ys : List JVal} : JEquivList xs ys → JEquiv (.arr xs) (.arr ys)
  | obj {kvs l kvs2 : List (String × JVal)} :
      JEquivEntries kvs l → l.Perm kvs2 → JEquiv (.obj kvs) (.obj kvs2)

/-- Element-wise equivalence of value lists. -/
inductive JEquivList : List JVal → List JVal → Prop where
  | nil : JEquivList [] []
  | cons {x y xs ys} : JEquiv x y → JEquivList xs ys → JEquivList (x :: xs) (y :: ys)

/-- Entry-wise equivalence: same keys in the same order, equivalent values. -/
inductive JEquivEntries : List (String × JVal) → List (String × JVal) → Prop where
  | nil : JEquivEntries [] []
  | cons (k : String) {v w rest rest'} : JEquiv v w → JEquivEntries rest rest' →
      JEquivEntries ((k, v) :: rest) ((k, w) :: rest')

end

theorem dumpsEntries_eq_map : ∀ l : List (String × JVal),
    dumpsEntries l = l.map (fun p => (p.1, dumps p.2))
  | [] => rfl
  | (k, v) :: rest => by rw [dumpsEntries, dumpsEntries_eq_map rest]; rfl

theorem wfbEntries_eq_all : ∀ l : List (String × JVal),
    wfbEntries l = l.all (fun p => wfb p.2)
  | [] => rfl
  | (k, v) :: rest => by rw [wfbEntries, wfbEntries_eq_all rest]; rfl

theorem wfbEntries_of_perm {l l' : List (String × JVal)} (hp : l.Perm l')
    (h : wfbEntries l' = true) : wfbEntries l = true := by
  rw [wfbEntries_eq_all] at h ⊢
  rw [List.all_eq_true] at h ⊢
  exact fun p hm => h p (hp.mem_iff.mp hm)

theorem keys_eq_of_equivEntries {l l' : List (String × JVal)}
    (h : JEquivEntries l l') : l.map Prod.fst = l'.map Prod.fst := by
  induction l generalizing l' with
  | nil => cases h; rfl
  | cons p rest ih =>
      cases h with
      | cons k hv ht => simpa using ih ht

mutual

/-- Key-sorted JSON serialization is invariant under the insertion order
of mapping keys: equivalent well-formed values serialize identically. -/
theorem dumps_eq_of_equiv : ∀ {v w : JVal}, JEquiv v w →
    wfb v = true → wfb w = true → dumps v = dumps w
  | _, _, .null, _, _ => rfl
  | _, _, .bool _, _, _ => rfl
  | _, _, .int _, _, _ => rfl
  | _, _, .str _, _, _ => rfl
  | _, _, .arr h, hv, hw => by
      simp only [wfb] at hv hw
      simp only [dumps]
      rw [dumpsList_eq_of_equiv h hv hw]
  | _, _, @JEquiv.obj kvs l kvs2 h hp, hv, hw => by
      simp only [wfb, Bool.and_eq_true, decide_eq_true_eq] at hv hw
      have hl : wfbEntries l = true := wfbEntries_of_perm hp hw.2
      have he : dumpsEntries kvs = dumpsEntries l :=
        dumpsEntries_eq_of_equiv h hv.2 hl
      have hperm : (dumpsEntries l).Perm (dumpsEntries kvs2) := by
        rw [dumpsEntries_eq_map, dumpsEntries_eq_map]
        exact hp.map _
      have hkeys : ((dumpsEntries l).map Prod.fst).Nodup := by
        rw [dumpsEntries_eq_map, List.map_map]
        have hc : (Prod.fst ∘ fun p : String × JVal => (p.1, dumps p.2)) = Prod.fst := rfl
        rw [hc, ← keys_eq_of_equivEntries h]
        exact hv.1
      simp only [dumps]
      rw [he, sortByKey_eq_of_perm hperm hkeys]

/-- Element lists serialize identically. -/
theorem dumpsList_eq_of_equiv : ∀ {xs ys : List JVal}, JEquivList xs ys →
    wfbList xs = true → wfbList ys = true → dumpsList xs = dumpsList ys
  | _, _, .nil, _, _ => rfl
  | _, _, .cons h ht, hv, hw => by
      simp only [wfbList, Bool.and_eq_true] at hv hw
      simp only [dumpsList]
      rw [dumps_eq_of_equiv h hv.1 hw.1, dumpsList_eq_of_equiv ht hv.2 hw.2]

/-- Entry lists serialize identically (same keys, equivalent values). -/
theorem dumpsEntries_eq_of_equiv : ∀ {xs ys : List (String × JVal)}, JEquivEntries xs ys →
    wfbEntries xs = true → wfbEntries ys = true → dumpsEntries xs = dumpsEntries ys
  | _, _, .nil, _, _ => rfl
  | _, _, .cons k h ht, hv, hw => by
      simp only [wfbEntries, Bool.and_eq_true] at hv hw
      simp only [dumpsEntries]
      rw [dumps_eq_of_equiv h hv.1 hw.1, dumpsEntries_eq_of_equiv ht hv.2 hw.2]

end

/-! ## Claim theorems -/

theorem pathStr_triple (a b c : String) :
    pathStr [a, b, c] = a ++ "/" ++ b ++ "/" ++ c := rfl

/-- A fresh manager as built by `ExperimentManager()` with the default
base directory and monitored keys. -/
def mgr0 : MState := initManager none ["model", "training"]

/-- The empty filesystem. -/
def emptyFS : FS := { dirs := [], files := [], mtimes := [] }

/-- C4: for every base directory and every pair of folder names whose run
path does not exist, `resume_run` fails with the `FileNotFoundError`
(the spec's RunNotFound) carrying exactly `{base}/{exp}/{run}`, and the
state is returned unchanged. -/
theorem resume_run_not_found (fs : FS) (st : MState) (e r : String)
    (h : fs.existsPath [st.base_experiment_path, e, r] = false) :
    resume_run fs st e r =
      (st, .error (.fileNotFound (st.base_experiment_path ++ "/" ++ e ++ "/" ++ r))) := by
  simp only [resume_run, h, Bool.false_eq_true, if_false, pathStr_triple]

/-- Witness for C4 at a concrete input: the empty filesystem has no
`experiments/e1/r1`, and the reported path is exactly that string. -/
theorem resume_run_not_found_witness :
    emptyFS.existsPath ["experiments", "e1", "r1"] = false ∧
    resume_run emptyFS mgr0 "e1" "r1" =
      (mgr0, .error (.fileNotFound ("experiments" ++ "/" ++ "e1" ++ "/" ++ "r1"))) :=
  ⟨rfl, resume_run_not_found emptyFS mgr0 "e1" "r1" rfl⟩

/-- A filesystem holding an existing run directory `experiments/e1/r1`
whose `models` checkpoint directory exists but is empty. -/
def fsEmptyCkpt : FS :=
  { dirs := [["experiments"], ["experiments", "e1"], ["experiments", "e1", "r1"],
             ["experiments", "e1", "r1", "models"]],
    files := [], mtimes := [] }

/-- C5: resuming an existing run whose checkpoint directory holds no
entries fails with the `ValueError` that `max` raises on an empty
sequence (the spec's NoCheckpointFound). -/
theorem resume_run_no_checkpoint (fs : FS) (st : MState) (e r : String)
    (hex : fs.existsPath [st.base_experiment_path, e, r] = true)
    (hg : fs.glob ([st.base_experiment_path, e, r] ++ ["models"]) = []) :
    (resume_run fs st e r).2 = .error .maxEmptySequence := by
  simp only [resume_run, hex, if_true, hg, pyMaxByKey]

/-- Witness for C5 at a concrete input. -/
theorem resume_run_no_checkpoint_witness :
    fsEmptyCkpt.existsPath ["experiments", "e1", "r1"] = true ∧
    fsEmptyCkpt.glob (["experiments", "e1", "r1"] ++ ["models"]) = [] ∧
    (resume_run fsEmptyCkpt mgr0 "e1" "r1").2 = .error .maxEmptySequence :=
  ⟨rfl, rfl, resume_run_no_checkpoint fsEmptyCkpt mgr0 "e1" "r1" rfl rfl⟩

/-- C10: when `resume_run` fails because the run path does not exist, the
recorded identity is untouched (the assignments sit inside the `exists`
branch), so experiment-id and run-id derivation behave as if `resume_run`
had never been called. -/
theorem resume_run_failure_keeps_identity (fs : FS) (st : MState) (e r now : String)
    (h : fs.existsPath [st.base_experiment_path, e, r] = false) :
    (resume_run fs st e r).1 = st ∧
    get_experiment_id (resume_run fs st e r).1 = get_experiment_id st ∧
    get_run_id (resume_run fs st e r).1 now = get_run_id st now := by
  simp only [resume_run, h, Bool.false_eq_true, if_false]
  exact ⟨trivial, trivial, trivial⟩

/-- Witness for C10 at a concrete input. -/
theorem resume_run_failure_keeps_identity_witness :
    emptyFS.existsPath ["experiments", "eX", "rX"] = false ∧
    ((resume_run emptyFS mgr0 "eX" "rX").1 = mgr0 ∧
     get_experiment_id (resume_run emptyFS mgr0 "eX" "rX").1 = get_experiment_id mgr0 ∧
     get_run_id (resume_run emptyFS mgr0 "eX" "rX").1 "t" = get_run_id mgr0 "t") :=
  ⟨rfl, resume_run_failure_keeps_identity emptyFS mgr0 "eX" "rX" "t" rfl⟩

/-- Concatenation of a list of strings, in order. -/
def concatStr (l : List String) : String := l.foldr (fun a b => a ++ b) ""

theorem foldlM_hash (ps : Option (List (String × JVal))) (vals : String → JVal) :
    ∀ (keys : List String) (acc : String),
    (∀ k ∈ keys, paramsGet ps k = .ok (vals k)) →
    keys.foldlM (fun acc k => (paramsGet ps k).map (fun v => acc ++ "-" ++ hash_8 v)) acc
      = .ok (acc ++ concatStr (keys.map (fun k => "-" ++ hash_8 (vals k))))
  | [], acc, _ => by
      rw [List.foldlM_nil]
      show Except.ok acc = _
      simp [concatStr]
  | k :: keys, acc, h => by
      have hk : paramsGet ps k = .ok (vals k) := h k (by simp)
      have ih := foldlM_hash ps vals keys (acc ++ "-" ++ hash_8 (vals k))
        (fun k' hk' => h k' (List.mem_cons_of_mem _ hk'))
      rw [List.foldlM_cons, hk]
      show keys.foldlM _ (acc ++ "-" ++ hash_8 (vals k)) = _
      rw [ih]
      show Except.ok _ = Except.ok (acc ++ (("-" ++ hash_8 (vals k)) ++ _))
      rw [← String.append_assoc, ← String.append_assoc]
      rfl

/-- Modelled from the spec's words, for the refinement comparison of the
claimed identifier format: one `hash8` segment per monitored key, in
order, joined by single hyphens after the `exp-` prefix
(`exp-\x7bhash1\x7d-\x7bhash2\x7d-...`). -/
def specExperimentId (vals : List JVal) : String :=
  "exp-" ++ String.intercalate "-" (vals.map hash_8)

/-- A fresh manager whose configuration maps `model` to `1` and
`training` to `2`. -/
def stC1 : MState :=
  { params := some [("model", .int 1), ("training", .int 2)]
    base_experiment_path := "experiments"
    run_path := none
    run_id := none
    experiment_id_folder := none
    monitored_param_keys := ["model", "training"] }

set_option maxRecDepth 40000 in
/-- Counterexample to C1 as stated (the claimed
`exp-\x7bh1\x7d-\x7bh2\x7d` format): on the
configuration mapping `model` to `1` and `training` to `2`, the code
produces `exp--48635463-96094161` — a double hyphen after `exp` — which
differs from the single-hyphen string the spec describes for the same
configuration. -/
theorem experiment_id_double_hyphen :
    get_experiment_id stC1 = .ok "exp--48635463-96094161" ∧
    specExperimentId [JVal.int 1, JVal.int 2] = "exp-48635463-96094161" ∧
    Except.ok (specExperimentId [JVal.int 1, JVal.int 2]) ≠ get_experiment_id stC1 := by
  refine ⟨rfl, rfl, ?_⟩
  intro h
  rw [show specExperimentId [JVal.int 1, JVal.int 2] = "exp-48635463-96094161" from rfl] at h
  rw [show get_experiment_id stC1 = .ok "exp--48635463-96094161" from rfl] at h
  have : "exp-48635463-96094161" = "exp--48635463-96094161" := by
    injection h
  exact absurd this (by decide)

/-- Amended C1: with no resumed identity and every monitored key present,
the identifier is `exp-` followed by, for each monitored key in the
caller-given order, a hyphen and then the first 8 characters of the
decimal representation of the SHA-256 digest of the key-sorted JSON
serialization of that key's sub-value — i.e. `exp--h1-h2-...`, with a
double hyphen between the prefix and the first segment. -/
theorem get_experiment_id_fresh (st : MState) (vals : String → JVal)
    (hef : st.experiment_id_folder = none)
    (hv : ∀ k ∈ st.monitored_param_keys, paramsGet st.params k = .ok (vals k)) :
    get_experiment_id st =
      .ok ("exp-" ++ concatStr (st.monitored_param_keys.map
        (fun k => "-" ++ hash_8 (vals k)))) := by
  simp only [get_experiment_id, hef]
  rw [foldlM_hash st.params vals st.monitored_param_keys "" hv]
  rfl

/-- The concrete monitored values of `stC1`, as a lookup function. -/
def valsC1 : String → JVal := fun k => if k = "model" then JVal.int 1 else JVal.int 2

set_option maxRecDepth 40000 in
/-- Witness for the amended C1, at the concrete configuration of the
counterexample (the two segments are the hashes of `1` and of `2`). -/
theorem get_experiment_id_fresh_witness :
    (stC1.experiment_id_folder = none ∧
     ∀ k ∈ stC1.monitored_param_keys, paramsGet stC1.params k = .ok (valsC1 k)) ∧
    get_experiment_id stC1 =
      .ok ("exp-" ++ concatStr (stC1.monitored_param_keys.map
        (fun k => "-" ++ hash_8 (valsC1 k)))) :=
  ⟨⟨rfl, by
      intro k hk
      rcases (by simpa [stC1] using hk : k = "model" ∨ k = "training") with rfl | rfl <;> rfl⟩,
   get_experiment_id_fresh stC1 valsC1 rfl (by
      intro k hk
      rcases (by simpa [stC1] using hk : k = "model" ∨ k = "training") with rfl | rfl <;> rfl)⟩

theorem foldlM_hash_congr (ps1 ps2 : Option (List (String × JVal))) :
    ∀ (keys : List String) (acc : String),
    (∀ k ∈ keys, ∃ v1 v2, paramsGet ps1 k = .ok v1 ∧ paramsGet ps2 k = .ok v2 ∧
      wfb v1 = true ∧ wfb v2 = true ∧ JEquiv v1 v2) →
    keys.foldlM (fun acc k => (paramsGet ps1 k).map (fun v => acc ++ "-" ++ hash_8 v)) acc =
    keys.foldlM (fun acc k => (paramsGet ps2 k).map (fun v => acc ++ "-" ++ hash_8 v)) acc
  | [], _, _ => rfl
  | k :: keys, acc, h => by
      obtain ⟨v1, v2, h1, h2, w1, w2, he⟩ := h k (by simp)
      have hh : hash_8 v1 = hash_8 v2 := by
        unfold hash_8
        rw [dumps_eq_of_equiv he w1 w2]
      rw [List.foldlM_cons, List.foldlM_cons, h1, h2]
      show keys.foldlM _ (acc ++ "-" ++ hash_8 v1) = keys.foldlM _ (acc ++ "-" ++ hash_8 v2)
      rw [hh]
      exact foldlM_hash_congr ps1 ps2 keys _
        (fun k' hk' => h k' (List.mem_cons_of_mem _ hk'))

/-- C2: two configurations that agree on every monitored key's value up
to the insertion order of mapping keys (anywhere inside those values or
elsewhere in the configuration) get the same experiment identifier, for
the same monitored-key list and no resumed identity. -/
theorem get_experiment_id_order_independent (st1 st2 : MState)
    (hkeys : st1.monitored_param_keys = st2.monitored_param_keys)
    (he1 : st1.experiment_id_folder = none)
    (he2 : st2.experiment_id_folder = none)
    (hv : ∀ k ∈ st1.monitored_param_keys, ∃ v1 v2,
        paramsGet st1.params k = .ok v1 ∧ paramsGet st2.params k = .ok v2 ∧
        wfb v1 = true ∧ wfb v2 = true ∧ JEquiv v1 v2) :
    get_experiment_id st1 = get_experiment_id st2 := by
  simp only [get_experiment_id, he1, he2]
  rw [← hkeys]
  rw [foldlM_hash_congr st1.params st2.params st1.monitored_param_keys "" hv]

/-- Configuration 1 for the C2 witness: nested keys in one order. -/
def cfgA : List (String × JVal) :=
  [("model", .obj [("a", .int 1), ("b", .int 2)]), ("training", .int 5)]

/-- Configuration 2 for the C2 witness: same values, mapping keys
inserted in a different order, and an extra unmonitored key first. -/
def cfgB : List (String × JVal) :=
  [("extra", .int 9), ("training", .int 5), ("model", .obj [("b", .int 2), ("a", .int 1)])]

/-- Manager state over configuration `cfgA`. -/
def stA : MState :=
  { params := some cfgA, base_experiment_path := "experiments", run_path := none,
    run_id := none, experiment_id_folder := none,
    monitored_param_keys := ["model", "training"] }

/-- Manager state over configuration `cfgB`. -/
def stB : MState :=
  { params := some cfgB, base_experiment_path := "experiments", run_path := none,
    run_id := none, experiment_id_folder := none,
    monitored_param_keys := ["model", "training"] }

/-- Witness for C2: the two concrete configurations above agree on the
monitored keys up to key insertion order, and the theorem yields equal
experiment identifiers. -/
theorem get_experiment_id_order_independent_witness :
    (∀ k ∈ stA.monitored_param_keys, ∃ v1 v2,
        paramsGet stA.params k = .ok v1 ∧ paramsGet stB.params k = .ok v2 ∧
        wfb v1 = true ∧ wfb v2 = true ∧ JEquiv v1 v2) ∧
    get_experiment_id stA = get_experiment_id stB := by
  have hmodel : JEquiv (.obj [("a", .int 1), ("b", .int 2)])
      (.obj [("b", .int 2), ("a", .int 1)]) :=
    .obj (.cons "a" (.int 1) (.cons "b" (.int 2) .nil)) (List.Perm.swap _ _ _)
  have hv : ∀ k ∈ stA.monitored_param_keys, ∃ v1 v2,
      paramsGet stA.params k = .ok v1 ∧ paramsGet stB.params k = .ok v2 ∧
      wfb v1 = true ∧ wfb v2 = true ∧ JEquiv v1 v2 := by
    intro k hk
    rcases (by simpa [stA] using hk : k = "model" ∨ k = "training") with rfl | rfl
    · exact ⟨_, _, rfl, rfl, by decide, by decide, hmodel⟩
    · exact ⟨.int 5, .int 5, rfl, rfl, rfl, rfl, .int 5⟩
  exact ⟨hv, get_experiment_id_order_independent stA stB rfl rfl rfl hv⟩

/-- Whether an embedded Python call returned normally (no exception). -/
def exceptOk {ε α : Type} : Except ε α → Bool
  | .ok _ => true
  | .error _ => false

theorem make_experiment_path_debug (fs : FS) (st : MState) (now : String) (v : JVal)
    (hdbg : paramsGet st.params "debug" = .ok v)
    (htr : jTruthy v = true)
    (hf1 : fs.files.any (fun q => q.1 == get_debug_path st) = false)
    (hf2 : fs.files.any (fun q => q.1 == get_debug_path st ++ ["models"]) = false) :
    ∃ fs', make_experiment_path fs st now =
      .ok ({ st with run_path := some (get_debug_path st) }, fs') := by
  unfold make_experiment_path
  rw [hdbg]
  simp only [Bind.bind, Except.bind, htr, if_true]
  simp only [FS.mkdirParents, hf1, Bool.false_eq_true, if_false]
  simp only [pure, Except.pure, hf2]
  cases hc : st.experiment_id_folder
  · exact ⟨_, by simp [write_parameters, hc, hf1, hf2]; rfl⟩
  · exact ⟨_, by simp [write_parameters, hc, hf1, hf2]; rfl⟩

/-- Counterexample to C9 as stated (the claimed `NotConfigured`
failure): on a manager
whose configuration was never set (`params = None`), calling `prepare`
with a valid configuration succeeds — `prepare` receives the
configuration as its own argument and stores it before any directory
work, so the claimed failure mode cannot occur (and no `NotConfigured`
error exists anywhere in the code). -/
theorem prepare_before_configure_succeeds :
    mgr0.params = none ∧
    exceptOk (prepare emptyFS mgr0 [("debug", JVal.bool true)] "26-10-12--10-00") = true :=
  ⟨rfl, rfl⟩

/-- Amended C9: `prepare` cannot be called "before the configuration has
been set" in a failing way: it sets the configuration itself from its
argument first, so on a never-configured manager a `prepare` call with a
valid configuration (here: a truthy `debug`, no file squatting on the
debug directories) returns normally, recording the argument as the
configuration. -/
theorem prepare_unconfigured_ok (fs : FS) (st : MState) (params : List (String × JVal))
    (now : String) (v : JVal)
    (hst : st.params = none)
    (hdbg : paramsGet (some params) "debug" = .ok v)
    (htr : jTruthy v = true)
    (hf1 : fs.files.any (fun q => q.1 == get_debug_path st) = false)
    (hf2 : fs.files.any (fun q => q.1 == get_debug_path st ++ ["models"]) = false) :
    ∃ fs', prepare fs st params now =
      .ok ({ st with params := some params, run_path := some (get_debug_path st) }, fs') := by
  obtain ⟨fs', h⟩ :=
    make_experiment_path_debug fs (set_parameter_files st params) now v hdbg htr hf1 hf2
  exact ⟨fs', h⟩

/-- Witness for the amended C9 at a concrete fresh manager. -/
theorem prepare_unconfigured_ok_witness :
    (mgr0.params = none ∧
     paramsGet (some [("debug", JVal.bool true)]) "debug" = .ok (JVal.bool true) ∧
     jTruthy (JVal.bool true) = true) ∧
    ∃ fs', prepare emptyFS mgr0 [("debug", JVal.bool true)] "26-10-12--10-00" =
      .ok ({ mgr0 with params := some [("debug", JVal.bool true)],
                       run_path := some (get_debug_path mgr0) }, fs') :=
  ⟨⟨rfl, rfl, rfl⟩,
   prepare_unconfigured_ok emptyFS mgr0 [("debug", JVal.bool true)] "26-10-12--10-00"
     (JVal.bool true) rfl rfl rfl rfl rfl⟩

theorem mkdirParents_ok_files {fs : FS} {p : FsPath} {fs1 : FS}
    (h : fs.mkdirParents p = .ok fs1) :
    fs1.files = fs.files ∧ fs.files.any (fun q => q.1 == p) = false := by
  unfold FS.mkdirParents at h
  split at h
  · cases h
  · next hc =>
      cases h
      refine ⟨rfl, ?_⟩
      cases hb : fs.files.any (fun q => q.1 == p)
      · rfl
      · exact absurd hb hc

theorem write_parameters_resumed {f : FS} (st : MState) (e : String)
    (h : st.experiment_id_folder = some e) : write_parameters f st = .ok f := by
  unfold write_parameters
  rw [h]

theorem write_parameters_fresh {f : FS} (st : MState) (rp : FsPath)
    (he : st.experiment_id_folder = none) (hrp : st.run_path = some rp) :
    write_parameters f st =
      .ok (f.writeFile (rp ++ ["hyperparameters.json"]) (paramsJson st.params)) := by
  unfold write_parameters
  rw [he, hrp]

theorem make_experiment_path_ok_elim {fs : FS} {st : MState} {now : String}
    {st' : MState} {fs' : FS}
    (h : make_experiment_path fs st now = .ok (st', fs')) :
    ∃ v rp fs1 fs2,
      paramsGet st.params "debug" = .ok v ∧
      ((jTruthy v = true ∧ rp = get_debug_path st) ∨
        (jTruthy v = false ∧ get_run_path st now = .ok rp)) ∧
      fs.mkdirParents rp = .ok fs1 ∧
      fs1.mkdirParents (rp ++ ["models"]) = .ok fs2 ∧
      st' = { st with run_path := some rp } ∧
      write_parameters fs2 st' = .ok fs' := by
  unfold make_experiment_path at h
  simp only [Bind.bind, Except.bind, pure, Except.pure] at h
  cases hd : paramsGet st.params "debug" with
  | error e => rw [hd] at h; simp only at h; exact Except.noConfusion h
  | ok v =>
    rw [hd] at h
    simp only at h
    by_cases ht : jTruthy v = true
    · rw [if_pos ht] at h
      cases h1 : fs.mkdirParents (get_debug_path st) with
      | error e => rw [h1] at h; simp only at h; exact Except.noConfusion h
      | ok fs1 =>
        rw [h1] at h
        simp only at h
        cases h2 : fs1.mkdirParents (get_debug_path st ++ ["models"]) with
        | error e => rw [h2] at h; simp only at h; exact Except.noConfusion h
        | ok fs2 =>
          rw [h2] at h
          simp only at h
          cases h3 : write_parameters fs2 { st with run_path := some (get_debug_path st) } with
          | error e => rw [h3] at h; simp only at h; exact Except.noConfusion h
          | ok fsw =>
            rw [h3] at h
            simp only at h
            injection h with h'
            injection h' with hst hfs
            refine ⟨v, get_debug_path st, fs1, fs2, rfl, Or.inl ⟨ht, rfl⟩, h1, h2, hst.symm, ?_⟩
            rw [hst] at h3
            rw [h3, hfs]
    · rw [if_neg ht] at h
      cases hr : get_run_path st now with
      | error e => rw [hr] at h; simp only at h; exact Except.noConfusion h
      | ok rp =>
        rw [hr] at h
        simp only at h
        cases h1 : fs.mkdirParents rp with
        | error e => rw [h1] at h; simp only at h; exact Except.noConfusion h
        | ok fs1 =>
          rw [h1] at h
          simp only at h
          cases h2 : fs1.mkdirParents (rp ++ ["models"]) with
          | error e => rw [h2] at h; simp only at h; exact Except.noConfusion h
          | ok fs2 =>
            rw [h2] at h
            simp only at h
            cases h3 : write_parameters fs2 { st with run_path := some rp } with
            | error e => rw [h3] at h; simp only at h; exact Except.noConfusion h
            | ok fsw =>
              rw [h3] at h
              simp only at h
              injection h with h'
              injection h' with hst hfs
              refine ⟨v, rp, fs1, fs2, rfl, Or.inr ⟨by simpa using ht, rfl⟩,
                h1, h2, hst.symm, ?_⟩
              rw [hst] at h3
              rw [h3, hfs]

theorem fileContent_writeFile_self (fs : FS) (p : FsPath) (c : String) :
    (fs.writeFile p c).fileContent p = some c := by
  unfold FS.writeFile FS.fileContent
  simp [List.find?]

/-- C3: a successful `prepare` on a resumed identity (recorded
`experiment_id_folder`) changes no file at all — in particular the
parameters file content is byte-identical before and after — while a
successful `prepare` on a fresh (non-resumed) manager writes the
configuration to `run_path/hyperparameters.json`. -/
theorem prepare_parameters_file (fs : FS) (st : MState)
    (params : List (String × JVal)) (now : String) (st' : MState) (fs' : FS)
    (h : prepare fs st params now = .ok (st', fs')) :
    (∀ e, st.experiment_id_folder = some e → fs'.files = fs.files) ∧
    (st.experiment_id_folder = none → ∃ rp, st'.run_path = some rp ∧
      fs'.fileContent (rp ++ ["hyperparameters.json"]) =
        some (paramsJson (some params))) := by
  obtain ⟨v, rp, fs1, fs2, hd, hbr, h1, h2, hst, hw⟩ := make_experiment_path_ok_elim h
  obtain ⟨hf1, _⟩ := mkdirParents_ok_files h1
  obtain ⟨hf2, _⟩ := mkdirParents_ok_files h2
  constructor
  · intro e he
    have he' : st'.experiment_id_folder = some e := by rw [hst]; exact he
    have hres : write_parameters fs2 st' = .ok fs2 := write_parameters_resumed st' e he'
    have hfs : fs' = fs2 := by
      have hx := hw.symm.trans hres
      exact Except.ok.inj hx
    rw [hfs, hf2, hf1]
  · intro he
    have he' : st'.experiment_id_folder = none := by rw [hst]; exact he
    have hrp : st'.run_path = some rp := by rw [hst]
    have hw2 := write_parameters_fresh (f := fs2) st' rp he' hrp
    have hps : st'.params = some params := by rw [hst]; rfl
    have hfs : fs' = fs2.writeFile (rp ++ ["hyperparameters.json"]) (paramsJson st'.params) := by
      have := hw.symm.trans hw2
      exact Except.ok.inj this
    refine ⟨rp, hrp, ?_⟩
    rw [hfs, hps, fileContent_writeFile_self]

theorem mkdirParents_ok_of_no_file {fs : FS} {p : FsPath}
    (h : fs.files.any (fun q => q.1 == p) = false) :
    fs.mkdirParents p =
      .ok { fs with dirs := fs.dirs ++ (ancestorsOf p).filter (fun q => !fs.dirs.contains q) } := by
  unfold FS.mkdirParents
  rw [if_neg (by simp [h])]

theorem write_parameters_ok_of_run_path {fs : FS} (st : MState) (rp : FsPath)
    (hrp : st.run_path = some rp) : ∃ g, write_parameters fs st = .ok g := by
  unfold write_parameters
  cases st.experiment_id_folder
  · rw [hrp]
    exact ⟨_, rfl⟩
  · exact ⟨fs, rfl⟩

theorem make_experiment_path_ok_intro (fs : FS) (st : MState) (now : String)
    (v : JVal) (rp : FsPath)
    (hd : paramsGet st.params "debug" = .ok v)
    (hbr : (jTruthy v = true ∧ rp = get_debug_path st) ∨
           (jTruthy v = false ∧ get_run_path st now = .ok rp))
    (ha1 : fs.files.any (fun q => q.1 == rp) = false)
    (ha2 : fs.files.any (fun q => q.1 == rp ++ ["models"]) = false) :
    ∃ fs'', make_experiment_path fs st now = .ok ({ st with run_path := some rp }, fs'') := by
  unfold make_experiment_path
  rw [hd]
  simp only [Bind.bind, Except.bind, pure, Except.pure]
  rcases hbr with ⟨ht, hrp⟩ | ⟨ht, hr⟩
  · subst hrp
    rw [if_pos ht]
    rw [mkdirParents_ok_of_no_file ha1]
    simp only
    rw [mkdirParents_ok_of_no_file (by simpa using ha2)]
    simp only
    obtain ⟨g, hg⟩ := write_parameters_ok_of_run_path
      { st with run_path := some (get_debug_path st) } (get_debug_path st) rfl
    rw [hg]
    exact ⟨g, rfl⟩
  · rw [if_neg (by simp [ht]), hr]
    simp only
    rw [mkdirParents_ok_of_no_file ha1]
    simp only
    rw [mkdirParents_ok_of_no_file (by simpa using ha2)]
    simp only
    obtain ⟨g, hg⟩ := write_parameters_ok_of_run_path
      { st with run_path := some rp } rp rfl
    rw [hg]
    exact ⟨g, rfl⟩

theorem any_filter_false {l : List (FsPath × String)} {p : FsPath}
    (h : l.any (fun q => q.1 == p) = false) (f : FsPath × String → Bool) :
    (l.filter f).any (fun q => q.1 == p) = false := by
  rw [List.any_eq_false] at h ⊢
  exact fun x hx => h x (List.mem_of_mem_filter hx)

theorem append_singleton_beq_false (p : FsPath) (x : String) :
    ((p ++ [x] : FsPath) == p) = false := by
  rw [beq_eq_false_iff_ne]
  intro hx
  have := congrArg List.length hx
  simp at this

/-- C6: if `prepare` succeeded once, calling it again with the same
configuration in the same wall-clock minute succeeds as well — the
directory creations use `parents=True, exist_ok=True`, so recreating the
existing run path and checkpoint subdirectory is not an error. -/
theorem prepare_twice_ok (fs : FS) (st : MState) (params : List (String × JVal))
    (now : String) (st' : MState) (fs' : FS)
    (h : prepare fs st params now = .ok (st', fs')) :
    ∃ st'' fs'', prepare fs' st' params now = .ok (st'', fs'') := by
  obtain ⟨v, rp, fs1, fs2, hd, hbr, h1, h2, hst, hw⟩ := make_experiment_path_ok_elim h
  obtain ⟨hf1, ha1⟩ := mkdirParents_ok_files h1
  obtain ⟨hf2, ha2⟩ := mkdirParents_ok_files h2
  subst hst
  rw [hf1] at ha2
  have hfs2files : fs2.files = fs.files := by rw [hf2, hf1]
  have hfsfiles : fs'.files = fs.files ∨
      fs'.files = (rp ++ ["hyperparameters.json"], paramsJson (some params)) ::
        fs.files.filter (fun q => q.1 ≠ rp ++ ["hyperparameters.json"]) := by
    cases hc : st.experiment_id_folder with
    | some e =>
        have hres := write_parameters_resumed (f := fs2)
          { set_parameter_files st params with run_path := some rp } e hc
        left
        have hx := hw.symm.trans hres
        rw [Except.ok.inj hx, hfs2files]
    | none =>
        have hfr := write_parameters_fresh (f := fs2)
          { set_parameter_files st params with run_path := some rp } rp hc rfl
        right
        have hx := hw.symm.trans hfr
        rw [Except.ok.inj hx]
        unfold FS.writeFile
        rw [hfs2files]
        rfl
  have haRun : fs'.files.any (fun q => q.1 == rp) = false := by
    rcases hfsfiles with hE | hE <;> rw [hE]
    · exact ha1
    · simp only [List.any_cons, append_singleton_beq_false, Bool.false_or]
      exact any_filter_false ha1 _
  have haModels : fs'.files.any (fun q => q.1 == rp ++ ["models"]) = false := by
    rcases hfsfiles with hE | hE <;> rw [hE]
    · exact ha2
    · simp only [List.any_cons]
      have hhd : ((rp ++ ["hyperparameters.json"] : FsPath) == rp ++ ["models"]) = false := by
        rw [beq_eq_false_iff_ne]
        intro hx
        have := List.append_inj_right hx rfl
        simp at this
      rw [hhd]
      simp only [Bool.false_or]
      exact any_filter_false ha2 _
  obtain ⟨fs'', hmk⟩ := make_experiment_path_ok_intro fs'
    (set_parameter_files { set_parameter_files st params with run_path := some rp } params)
    now v rp hd hbr haRun haModels
  exact ⟨_, fs'', hmk⟩

/-- The configuration used by the lifecycle witnesses: a truthy `debug`. -/
def cfgD : List (String × JVal) := [("debug", JVal.bool true)]

/-- A manager with a resumed identity recorded (as after a successful
`resume_run`). -/
def stRes : MState :=
  { params := none, base_experiment_path := "experiments", run_path := none,
    run_id := some "r1", experiment_id_folder := some "e1",
    monitored_param_keys := ["model", "training"] }

/-- The state `prepare` leaves `stRes` in on the empty filesystem. -/
def stResP : MState :=
  { params := some cfgD, base_experiment_path := "experiments",
    run_path := some ["experiments", "debug"], run_id := some "r1",
    experiment_id_folder := some "e1",
    monitored_param_keys := ["model", "training"] }

/-- The filesystem after the directory creations alone (resumed run: the
parameters file is not written). -/
def fsDirsOnly : FS :=
  { dirs := [["experiments"], ["experiments", "debug"],
             ["experiments", "debug", "models"]],
    files := [], mtimes := [] }

/-- The state `prepare` leaves the fresh manager `mgr0` in. -/
def mgr0P : MState :=
  { params := some cfgD, base_experiment_path := "experiments",
    run_path := some ["experiments", "debug"], run_id := none,
    experiment_id_folder := none,
    monitored_param_keys := ["model", "training"] }

/-- The filesystem after a fresh `prepare`: directories plus the written
parameters file. -/
def fsFresh : FS :=
  { dirs := [["experiments"], ["experiments", "debug"],
             ["experiments", "debug", "models"]],
    files := [(["experiments", "debug", "hyperparameters.json"], paramsJson (some cfgD))],
    mtimes := [] }

/-- Witness for C3 at concrete runs: a resumed `prepare` leaves the file
table untouched, a fresh `prepare` writes the parameters file. -/
theorem prepare_parameters_file_witness :
    (∀ e, stRes.experiment_id_folder = some e → fsDirsOnly.files = emptyFS.files) ∧
    (mgr0.experiment_id_folder = none → ∃ rp, mgr0P.run_path = some rp ∧
      fsFresh.fileContent (rp ++ ["hyperparameters.json"]) =
        some (paramsJson (some cfgD))) :=
  ⟨(prepare_parameters_file emptyFS stRes cfgD "t" stResP fsDirsOnly (by rfl)).1,
   (prepare_parameters_file emptyFS mgr0 cfgD "t" mgr0P fsFresh (by rfl)).2⟩

/-- Witness for C6: re-running `prepare` on the state and filesystem the
first call produced succeeds. -/
theorem prepare_twice_ok_witness :
    ∃ st'' fs'', prepare fsFresh mgr0P cfgD "t" = .ok (st'', fs'') :=
  prepare_twice_ok emptyFS mgr0 cfgD "t" mgr0P fsFresh (by rfl)

theorem getD_append_left {l l' : List ℚ} {j : Nat} (h : j < l.length) :
    (l ++ l').getD j 0 = l.getD j 0 := by
  simp [List.getD_eq_getElem?_getD, List.getElem?_append_left h]

/-- Amended C7: for a metrics log with at least one row, whose columns
include the watched metric but not the reserved output column name
`elapsed`, the extractor emits exactly the rows whose watched value
equals the column minimum — all ties, none dropped, no others, in log
order — each record extended with the same elapsed value. -/
theorem extract_best_ties (f : Frame) (q : ℚ) (w : String)
    (hrows : f.rows ≠ [])
    (hw : f.cols.contains w = true)
    (hne : w ≠ "elapsed")
    (hel : f.cols.contains "elapsed" = false)
    (hlen : ∀ r ∈ f.rows, r.length = f.cols.length) :
    on_train_end f q w =
      .ok ((f.rows.filter (fun r => decide (some (r.getD (f.cols.indexOf w) 0) =
          colMin? (f.rows.map (fun r => r.getD (f.cols.indexOf w) 0))))).map
        (fun r => (f.cols ++ ["elapsed"]).zip (r ++ [q]))) ∧
    (∀ rec ∈ (f.rows.filter (fun r => decide (some (r.getD (f.cols.indexOf w) 0) =
          colMin? (f.rows.map (fun r => r.getD (f.cols.indexOf w) 0))))).map
        (fun r => (f.cols ++ ["elapsed"]).zip (r ++ [q])), ("elapsed", q) ∈ rec) := by
  have hwmem : w ∈ f.cols := by
    rw [List.contains_iff_exists_mem_beq] at hw
    obtain ⟨a, ha, hb⟩ := hw
    rwa [show a = w from (beq_iff_eq.mp hb).symm] at ha
  have hcolsne : ¬ f.cols.isEmpty = true := by
    rw [List.isEmpty_iff]
    intro hc
    rw [hc] at hwmem
    exact absurd hwmem (List.not_mem_nil w)
  have hj : f.cols.indexOf w < f.cols.length := List.indexOf_lt_length.mpr hwmem
  have hdf : setCol f "elapsed" q =
      { cols := f.cols ++ ["elapsed"], rows := f.rows.map (fun r => r ++ [q]) } := by
    unfold setCol
    rw [if_neg (by
      intro hc
      rw [hel] at hc
      exact Bool.noConfusion hc)]
  have hcont : ((f.cols ++ ["elapsed"]).contains w) = true :=
    List.contains_iff_exists_mem_beq.mpr ⟨w, List.mem_append_left _ hwmem, by simp⟩
  constructor
  · unfold on_train_end
    rw [if_neg hcolsne, hdf]
    rw [if_pos hcont]
    have hidx : (f.cols ++ ["elapsed"]).indexOf w = f.cols.indexOf w :=
      List.indexOf_append_of_mem hwmem
    have hcolvals : (f.rows.map (fun r => r ++ [q])).map (fun r => r.getD (f.cols.indexOf w) 0)
        = f.rows.map (fun r => r.getD (f.cols.indexOf w) 0) := by
      rw [List.map_map]
      exact List.map_congr_left (fun r hr =>
        getD_append_left (by rw [hlen r hr]; exact hj))
    have hfilter : (f.rows.map (fun r => r ++ [q])).filter
          (fun r => decide (some (r.getD (f.cols.indexOf w) 0) =
            colMin? (f.rows.map (fun r => r.getD (f.cols.indexOf w) 0))))
        = (f.rows.filter (fun r => decide (some (r.getD (f.cols.indexOf w) 0) =
            colMin? (f.rows.map (fun r => r.getD (f.cols.indexOf w) 0))))).map
            (fun r => r ++ [q]) := by
      rw [List.filter_map]
      congr 1
      exact List.filter_congr (fun r hr => by
        simp only [Function.comp]
        rw [getD_append_left (by rw [hlen r hr]; exact hj)])
    simp only [hidx, hcolvals]
    rw [hfilter, List.map_map]
    rfl
  · intro rec hrec
    rw [List.mem_map] at hrec
    obtain ⟨r, hr, hrec⟩ := hrec
    have hrlen : r.length = f.cols.length := hlen r (List.mem_of_mem_filter hr)
    rw [← hrec, List.zip_append hrlen.symm]
    exact List.mem_append_right _ (by simp)

/-- A metrics log that already carries a column named `elapsed`. -/
def exElapsed : Frame := { cols := ["elapsed"], rows := [[3], [1], [2]] }

/-- Counterexample to C7 as stated: when the watched metric is the
column `elapsed` and the log carries such a column (values 3, 1, 2), the
code first overwrites that column with the elapsed scalar and only then
selects, so it emits all three rows even though exactly one row of the
log attains the column minimum. -/
theorem extract_best_elapsed_counterexample :
    on_train_end exElapsed 7 "elapsed" =
      .ok [[("elapsed", 7)], [("elapsed", 7)], [("elapsed", 7)]] ∧
    (exElapsed.rows.filter (fun r => decide (some (r.getD (exElapsed.cols.indexOf "elapsed") 0) =
        colMin? (exElapsed.rows.map (fun r => r.getD (exElapsed.cols.indexOf "elapsed") 0))))).length = 1 ∧
    ((on_train_end exElapsed 7 "elapsed").map List.length) ≠ .ok 1 := by
  refine ⟨rfl, rfl, ?_⟩
  intro h
  rw [show ((on_train_end exElapsed 7 "elapsed").map List.length) = Except.ok 3 from rfl] at h
  exact absurd (Except.ok.inj h) (by decide)

/-- The metrics log of the claim's example: a `loss` column with the
values 0.5, 0.2, 0.2, 0.8 (as exact rationals). -/
def exLoss : Frame :=
  { cols := ["loss"], rows := [[mkRat 1 2], [mkRat 1 5], [mkRat 1 5], [mkRat 4 5]] }

/-- Witness for the amended C7 on the claim's example: rows 0.5, 0.2,
0.2, 0.8 under `loss` give exactly the two 0.2-rows, each carrying the
same elapsed value. -/
theorem extract_best_ties_witness :
    (exLoss.rows ≠ [] ∧ exLoss.cols.contains "loss" = true ∧
     ("loss" : String) ≠ "elapsed" ∧ exLoss.cols.contains "elapsed" = false ∧
     (∀ r ∈ exLoss.rows, r.length = exLoss.cols.length)) ∧
    on_train_end exLoss 3 "loss" =
      .ok [[("loss", mkRat 1 5), ("elapsed", 3)], [("loss", mkRat 1 5), ("elapsed", 3)]] ∧
    (on_train_end exLoss 3 "loss" =
      .ok ((exLoss.rows.filter (fun r => decide (some (r.getD (exLoss.cols.indexOf "loss") 0) =
          colMin? (exLoss.rows.map (fun r => r.getD (exLoss.cols.indexOf "loss") 0))))).map
        (fun r => (exLoss.cols ++ ["elapsed"]).zip (r ++ [3]))) ∧
     ∀ rec ∈ (exLoss.rows.filter (fun r => decide (some (r.getD (exLoss.cols.indexOf "loss") 0) =
          colMin? (exLoss.rows.map (fun r => r.getD (exLoss.cols.indexOf "loss") 0))))).map
        (fun r => (exLoss.cols ++ ["elapsed"]).zip (r ++ [3])), ("elapsed", (3 : ℚ)) ∈ rec) :=
  ⟨⟨by decide, rfl, by decide, rfl, by decide⟩, rfl,
   extract_best_ties exLoss 3 "loss" (by decide) rfl (by decide) rfl (by decide)⟩

/-- A metrics log with a header and zero data rows. -/
def headerOnly : Frame := { cols := ["loss"], rows := [] }

/-- Counterexample to C8 as stated: a metrics log with a header and zero
rows does not fail with EmptyLog — the call succeeds and emits an empty
record list (pandas raises EmptyDataError only for a file with no
columns at all). -/
theorem extract_best_zero_rows_no_error :
    headerOnly.rows = [] ∧ on_train_end headerOnly 1 "loss" = .ok [] :=
  ⟨rfl, rfl⟩

/-- Amended C8: the extractor fails with EmptyLog (pandas'
EmptyDataError) only when the log has no columns at all; with a header
and zero rows it succeeds, emitting no rows; and it fails with
MissingColumn (KeyError) when the watched metric is neither a column of
the log nor the appended `elapsed` column. -/
theorem extract_best_failures (f : Frame) (q : ℚ) (w : String) :
    (f.cols = [] → on_train_end f q w = .error .emptyDataError) ∧
    (f.cols ≠ [] → f.cols.contains w = true → f.rows = [] → on_train_end f q w = .ok []) ∧
    (f.cols ≠ [] → f.cols.contains w = false → w ≠ "elapsed" →
      on_train_end f q w = .error (.keyError w)) := by
  refine ⟨?_, ?_, ?_⟩
  · intro hc
    unfold on_train_end
    rw [if_pos (by rw [List.isEmpty_iff]; exact hc)]
  · intro hc hcw hrows
    have hwmem : w ∈ f.cols := by
      rw [List.contains_iff_exists_mem_beq] at hcw
      obtain ⟨a, ha, hb⟩ := hcw
      rwa [show a = w from (beq_iff_eq.mp hb).symm] at ha
    unfold on_train_end
    rw [if_neg (by rw [List.isEmpty_iff]; exact hc)]
    cases hcE : f.cols.contains "elapsed" with
    | true =>
        have hdf : setCol f "elapsed" q =
            { cols := f.cols,
              rows := f.rows.map (fun r => r.set (f.cols.indexOf "elapsed") q) } := by
          unfold setCol
          rw [if_pos hcE]
        rw [hdf, hrows]
        rw [if_pos hcw]
        rfl
    | false =>
        have hdf : setCol f "elapsed" q =
            { cols := f.cols ++ ["elapsed"], rows := f.rows.map (fun r => r ++ [q]) } := by
          unfold setCol
          rw [if_neg (by
            intro hx
            rw [hcE] at hx
            exact Bool.noConfusion hx)]
        rw [hdf, hrows]
        rw [if_pos (List.contains_iff_exists_mem_beq.mpr
          ⟨w, List.mem_append_left _ hwmem, by simp⟩)]
        rfl
  · intro hc hcw hne
    have hwnot : w ∉ f.cols := by
      intro hmem
      have hcx : f.cols.contains w = true :=
        List.contains_iff_exists_mem_beq.mpr ⟨w, hmem, by simp⟩
      rw [hcw] at hcx
      exact Bool.noConfusion hcx
    unfold on_train_end
    rw [if_neg (by rw [List.isEmpty_iff]; exact hc)]
    cases hcE : f.cols.contains "elapsed" with
    | true =>
        have hdf : setCol f "elapsed" q =
            { cols := f.cols,
              rows := f.rows.map (fun r => r.set (f.cols.indexOf "elapsed") q) } := by
          unfold setCol
          rw [if_pos hcE]
        rw [hdf]
        rw [if_neg (by
          intro hx
          rw [hcw] at hx
          exact Bool.noConfusion hx)]
    | false =>
        have hdf : setCol f "elapsed" q =
            { cols := f.cols ++ ["elapsed"], rows := f.rows.map (fun r => r ++ [q]) } := by
          unfold setCol
          rw [if_neg (by
            intro hx
            rw [hcE] at hx
            exact Bool.noConfusion hx)]
        rw [hdf]
        rw [if_neg (by
          intro hx
          rw [List.contains_iff_exists_mem_beq] at hx
          obtain ⟨a, ha, hb⟩ := hx
          rw [show a = w from (beq_iff_eq.mp hb).symm] at ha
          rcases List.mem_append.mp ha with h1 | h1
          · exact hwnot h1
          · exact hne (by simpa using h1))]

/-- Witness for the amended C8 at three concrete logs. -/
theorem extract_best_failures_witness :
    on_train_end { cols := [], rows := [] } 1 "loss" = .error .emptyDataError ∧
    on_train_end headerOnly 1 "loss" = .ok [] ∧
    on_train_end headerOnly 1 "acc" = .error (.keyError "acc") :=
  ⟨(extract_best_failures { cols := [], rows := [] } 1 "loss").1 rfl,
   (extract_best_failures headerOnly 1 "loss").2.1 (by decide) rfl rfl,
   (extract_best_failures headerOnly 1 "acc").2.2 (by decide) rfl (by decide)⟩
